import Mathlib

/-!
Verification of the rate-limit protection subsystem of AeroSpace-Alley-Comps.

Shallow embedding of `src/resources/rate_limit_protection.py` and
`src/resources/api_usage_tracker.py`.  Wall-clock time is passed explicitly
(as a rational number of seconds) wherever the Python code reads
`time.time()`; Python floats become rationals; Python exceptions become
`Except`; the JSON state dictionaries become association lists.
-/

namespace RateLimit

/-! ## Circuit breaker (`CircuitBreaker`, rate_limit_protection.py lines 227-325) -/

/-- The three circuit states: the Python string field `self.state`. -/
inductive CBState where
  | CLOSED
  | OPEN
  | HALF_OPEN
deriving Repr, DecidableEq

/-- State of `CircuitBreaker`.  `last_failure_time` is `None` or a wall-clock
time in seconds; configuration fields are carried in the state as in the
Python object. -/
structure CircuitBreaker where
  failure_threshold : ℕ
  timeout : ℚ
  half_open_max_calls : ℕ
  failure_count : ℕ
  success_count : ℕ
  last_failure_time : Option ℚ
  state : CBState
deriving Repr, DecidableEq

/-- `CircuitBreaker.__init__`: fresh breaker. -/
def CircuitBreaker.init (failure_threshold : ℕ) (timeout : ℚ)
    (half_open_max_calls : ℕ) : CircuitBreaker :=
  { failure_threshold := failure_threshold
    timeout := timeout
    half_open_max_calls := half_open_max_calls
    failure_count := 0
    success_count := 0
    last_failure_time := none
    state := CBState.CLOSED }

/-- `CircuitBreaker.is_available` at wall-clock time `now`.  Returns the
updated breaker and the boolean result.  The Python guard
`if self.last_failure_time and time.time() - self.last_failure_time > self.timeout`
is truthiness on the stored float, hence the `t ≠ 0` conjunct. -/
def CircuitBreaker.is_available (cb : CircuitBreaker) (now : ℚ) :
    CircuitBreaker × Bool :=
  if cb.state = CBState.OPEN then
    match cb.last_failure_time with
    | some t =>
        if t ≠ 0 ∧ now - t > cb.timeout then
          ({ cb with state := CBState.HALF_OPEN, success_count := 0 }, true)
        else
          (cb, false)
    | none => (cb, false)
  else
    (cb, true)

/-- `CircuitBreaker.record_success`. -/
def CircuitBreaker.record_success (cb : CircuitBreaker) : CircuitBreaker :=
  if cb.state = CBState.HALF_OPEN then
    let sc := cb.success_count + 1
    if sc ≥ cb.half_open_max_calls then
      { cb with success_count := sc, state := CBState.CLOSED, failure_count := 0 }
    else
      { cb with success_count := sc }
  else
    { cb with failure_count := 0 }

/-- `CircuitBreaker.record_failure` at wall-clock time `now`. -/
def CircuitBreaker.record_failure (cb : CircuitBreaker) (now : ℚ) : CircuitBreaker :=
  let cb1 := { cb with failure_count := cb.failure_count + 1,
                       last_failure_time := some now }
  if cb1.state = CBState.HALF_OPEN then
    { cb1 with state := CBState.OPEN }
  else if cb1.failure_count ≥ cb1.failure_threshold then
    { cb1 with state := CBState.OPEN }
  else
    cb1

/-- `k` consecutive `record_failure` calls, the `i`-th at time `τ i`
(applied in order `τ 0, τ 1, …`). -/
def CircuitBreaker.record_failures (cb : CircuitBreaker) (τ : ℕ → ℚ) :
    ℕ → CircuitBreaker
  | 0 => cb
  | k + 1 => (cb.record_failures τ k).record_failure (τ k)

/-- `k` consecutive `record_success` calls. -/
def CircuitBreaker.record_successes (cb : CircuitBreaker) : ℕ → CircuitBreaker
  | 0 => cb
  | k + 1 => (cb.record_successes k).record_success

/-- While strictly fewer than `failure_threshold` failures have been recorded
on a fresh breaker, the circuit stays CLOSED and just counts failures. -/
lemma record_failures_lt_threshold (F M : ℕ) (T : ℚ) (τ : ℕ → ℚ) (k : ℕ)
    (hk : k < F) :
    ((CircuitBreaker.init F T M).record_failures τ k).state = CBState.CLOSED ∧
    ((CircuitBreaker.init F T M).record_failures τ k).failure_count = k ∧
    ((CircuitBreaker.init F T M).record_failures τ k).failure_threshold = F ∧
    ((CircuitBreaker.init F T M).record_failures τ k).timeout = T ∧
    ((CircuitBreaker.init F T M).record_failures τ k).half_open_max_calls = M := by
  induction k with
  | zero =>
      simp [CircuitBreaker.record_failures, CircuitBreaker.init]
  | succ n ih =>
      obtain ⟨hst, hfc, hth, hto, hmx⟩ := ih (Nat.lt_of_succ_lt hk)
      have hlt : ¬ (n + 1 ≥ F) := by omega
      simp only [CircuitBreaker.record_failures, CircuitBreaker.record_failure,
        hst, hfc, hth, hto, hmx]
      simp [hlt]

/-- The `failure_threshold`-th consecutive failure on a fresh breaker opens
the circuit and stamps the failure time. -/
lemma record_failures_opens (F M : ℕ) (T : ℚ) (τ : ℕ → ℚ) (hF : 1 ≤ F) :
    ((CircuitBreaker.init F T M).record_failures τ F).state = CBState.OPEN ∧
    ((CircuitBreaker.init F T M).record_failures τ F).failure_count = F ∧
    ((CircuitBreaker.init F T M).record_failures τ F).last_failure_time
      = some (τ (F - 1)) ∧
    ((CircuitBreaker.init F T M).record_failures τ F).timeout = T := by
  obtain ⟨F', rfl⟩ : ∃ F', F = F' + 1 := ⟨F - 1, by omega⟩
  obtain ⟨hst, hfc, hth, hto, hmx⟩ :=
    record_failures_lt_threshold (F' + 1) M T τ F' (Nat.lt_succ_self F')
  simp only [CircuitBreaker.record_failures, CircuitBreaker.record_failure,
    hst, hfc, hth, hto, hmx]
  simp

/-- C1: for every circuit breaker with failure threshold `F` and timeout `T`
that starts CLOSED, after exactly `F` consecutive `record_failure()` calls
(at times `τ 0, …, τ (F-1)`) with no intervening `record_success()`, the
state is OPEN and `is_available()` returns false, and — since the call
leaves the state unchanged — every later `is_available()` call returns false
as long as strictly less than `T` seconds have elapsed since the last
`record_failure()`. -/
theorem C1_circuit_opens_deterministically (F M : ℕ) (T : ℚ) (τ : ℕ → ℚ)
    (now : ℚ) (hF : 1 ≤ F) (hnow : now - τ (F - 1) < T) :
    (((CircuitBreaker.init F T M).record_failures τ F).state = CBState.OPEN) ∧
    ((((CircuitBreaker.init F T M).record_failures τ F).is_available now).2
      = false) ∧
    ((((CircuitBreaker.init F T M).record_failures τ F).is_available now).1
      = (CircuitBreaker.init F T M).record_failures τ F) := by
  obtain ⟨hst, hfc, hlft, hto⟩ := record_failures_opens F M T τ hF
  have hcond : ¬ (τ (F - 1) ≠ 0 ∧
      now - τ (F - 1) > ((CircuitBreaker.init F T M).record_failures τ F).timeout) := by
    rw [hto]
    rintro ⟨-, h⟩
    linarith
  refine ⟨hst, ?_, ?_⟩ <;>
    simp [CircuitBreaker.is_available, hst, hlft, if_neg hcond]

/-- Witness for C1 at `F = 3`, `T = 300`, `M = 3`, failures at times
1, 2, 3, queried at time 200. -/
theorem C1_witness :
    (1 ≤ 3 ∧ (200 : ℚ) - (fun i : ℕ => (i : ℚ) + 1) (3 - 1) < 300) ∧
    ((((CircuitBreaker.init 3 300 3).record_failures
        (fun i : ℕ => (i : ℚ) + 1) 3).state = CBState.OPEN) ∧
     ((((CircuitBreaker.init 3 300 3).record_failures
        (fun i : ℕ => (i : ℚ) + 1) 3).is_available 200).2 = false) ∧
     ((((CircuitBreaker.init 3 300 3).record_failures
        (fun i : ℕ => (i : ℚ) + 1) 3).is_available 200).1
       = (CircuitBreaker.init 3 300 3).record_failures
           (fun i : ℕ => (i : ℚ) + 1) 3)) :=
  ⟨⟨by norm_num, by norm_num⟩,
   C1_circuit_opens_deterministically 3 3 300 (fun i : ℕ => (i : ℚ) + 1) 200
     (by norm_num) (by norm_num)⟩

/-- While strictly fewer than `half_open_max_calls` successes have been
recorded on a HALF_OPEN breaker with success counter 0, the circuit stays
HALF_OPEN and just counts successes. -/
lemma record_successes_lt_max (cb : CircuitBreaker)
    (hst : cb.state = CBState.HALF_OPEN) (hsc : cb.success_count = 0)
    (k : ℕ) (hk : k < cb.half_open_max_calls) :
    (cb.record_successes k).state = CBState.HALF_OPEN ∧
    (cb.record_successes k).success_count = k ∧
    (cb.record_successes k).half_open_max_calls = cb.half_open_max_calls := by
  induction k with
  | zero => exact ⟨hst, hsc, rfl⟩
  | succ n ih =>
      obtain ⟨hst', hsc', hmx'⟩ := ih (Nat.lt_of_succ_lt hk)
      have hlt : ¬ (n + 1 ≥ cb.half_open_max_calls) := by omega
      simp only [CircuitBreaker.record_successes, CircuitBreaker.record_success,
        hst', hsc', hmx']
      simp [hlt]

/-- `half_open_max_calls` consecutive successes on a HALF_OPEN breaker with
success counter 0 close the circuit and reset the failure counter. -/
lemma record_successes_closes (cb : CircuitBreaker)
    (hst : cb.state = CBState.HALF_OPEN) (hsc : cb.success_count = 0)
    (hM : 1 ≤ cb.half_open_max_calls) :
    (cb.record_successes cb.half_open_max_calls).state = CBState.CLOSED ∧
    (cb.record_successes cb.half_open_max_calls).failure_count = 0 := by
  obtain ⟨M', hM'⟩ : ∃ M', cb.half_open_max_calls = M' + 1 :=
    ⟨cb.half_open_max_calls - 1, by omega⟩
  obtain ⟨hst', hsc', hmx'⟩ :=
    record_successes_lt_max cb hst hsc M' (by omega)
  rw [hM']
  simp only [CircuitBreaker.record_successes, CircuitBreaker.record_success,
    hst', hsc', hmx', hM']
  simp

/-- C2: for every breaker in the OPEN state, once more than `timeout` seconds
have elapsed since the last failure (stamped at a nonzero wall-clock time),
the next `is_available()` call moves the state to HALF_OPEN, resets the
half-open success counter to 0 and returns true; from HALF_OPEN a single
`record_failure()` immediately returns the state to OPEN; and
`half_open_max_calls ≥ 1` consecutive `record_success()` calls with no
intervening failure close the circuit and reset the consecutive-failure
counter to 0. -/
theorem C2_half_open_probation (cb : CircuitBreaker) (t now now2 : ℚ)
    (hst : cb.state = CBState.OPEN)
    (hlft : cb.last_failure_time = some t) (ht : t ≠ 0)
    (helapsed : now - t > cb.timeout)
    (hM : 1 ≤ cb.half_open_max_calls) :
    ((cb.is_available now).2 = true ∧
     (cb.is_available now).1.state = CBState.HALF_OPEN ∧
     (cb.is_available now).1.success_count = 0) ∧
    (((cb.is_available now).1.record_failure now2).state = CBState.OPEN) ∧
    (((cb.is_available now).1.record_successes cb.half_open_max_calls).state
       = CBState.CLOSED ∧
     ((cb.is_available now).1.record_successes cb.half_open_max_calls).failure_count
       = 0) := by
  have hcond : t ≠ 0 ∧ now - t > cb.timeout := ⟨ht, helapsed⟩
  have havail : cb.is_available now
      = ({ cb with state := CBState.HALF_OPEN, success_count := 0 }, true) := by
    simp [CircuitBreaker.is_available, hst, hlft, if_pos hcond]
  refine ⟨⟨?_, ?_, ?_⟩, ?_, ?_⟩
  · rw [havail]
  · rw [havail]
  · rw [havail]
  · rw [havail]
    simp [CircuitBreaker.record_failure]
  · rw [havail]
    exact record_successes_closes _ rfl rfl hM

/-- A concrete OPEN breaker used by the C2 witness: threshold 3, timeout 300,
3 half-open calls, last failure stamped at time 10. -/
def cbOpenExample : CircuitBreaker :=
  { failure_threshold := 3, timeout := 300, half_open_max_calls := 3,
    failure_count := 3, success_count := 0,
    last_failure_time := some 10,
    state := CBState.OPEN }

/-- Witness for C2: the concrete OPEN breaker probed at time 311 (elapsed
301 > 300), refailed at time 312. -/
theorem C2_witness :
    (cbOpenExample.state = CBState.OPEN ∧
     cbOpenExample.last_failure_time = some 10 ∧
     (10 : ℚ) ≠ 0 ∧ (311 : ℚ) - 10 > cbOpenExample.timeout ∧
     1 ≤ cbOpenExample.half_open_max_calls) ∧
    (((cbOpenExample.is_available 311).2 = true ∧
      (cbOpenExample.is_available 311).1.state = CBState.HALF_OPEN ∧
      (cbOpenExample.is_available 311).1.success_count = 0) ∧
     (((cbOpenExample.is_available 311).1.record_failure 312).state
        = CBState.OPEN) ∧
     (((cbOpenExample.is_available 311).1.record_successes
         cbOpenExample.half_open_max_calls).state = CBState.CLOSED ∧
      ((cbOpenExample.is_available 311).1.record_successes
         cbOpenExample.half_open_max_calls).failure_count = 0)) :=
  ⟨⟨rfl, rfl, by norm_num, by norm_num [cbOpenExample], by norm_num [cbOpenExample]⟩,
   C2_half_open_probation cbOpenExample 10 311 312 rfl rfl (by norm_num)
     (by norm_num [cbOpenExample]) (by norm_num [cbOpenExample])⟩

/-! ## Token bucket (`TokenBucketRateLimiter`, rate_limit_protection.py
lines 139-220).  `last_refill` is replaced by passing each refill's elapsed
time explicitly. -/

/-- State of `TokenBucketRateLimiter`: `capacity`, current `tokens` (a
float in Python), and `refill_rate` in tokens per second. -/
structure TokenBucket where
  capacity : ℚ
  tokens : ℚ
  refill_rate : ℚ
deriving Repr, DecidableEq

/-- `TokenBucketRateLimiter.__init__`: the bucket starts full. -/
def TokenBucket.init (capacity : ℚ) (refill_rate : ℚ) : TokenBucket :=
  { capacity := capacity, tokens := capacity, refill_rate := refill_rate }

/-- `TokenBucketRateLimiter._refill` with `elapsed` seconds since the last
refill: `tokens = min(capacity, tokens + elapsed * refill_rate)`. -/
def TokenBucket.refill (b : TokenBucket) (elapsed : ℚ) : TokenBucket :=
  { b with tokens := min b.capacity (b.tokens + elapsed * b.refill_rate) }

/-- The deduction step of `acquire`: `self.tokens -= tokens`, executed only
when `self.tokens >= tokens`. -/
def TokenBucket.deduct (b : TokenBucket) (n : ℚ) : TokenBucket :=
  { b with tokens := b.tokens - n }

/-- The states a token bucket can reach from a full bucket of capacity `C`
and refill rate `r` by any interleaving of the primitive effects of
`acquire(n)` and `get_status()`: time-proportional refills (elapsed ≥ 0,
performed by `_refill` inside both operations) and deductions of `n ≥ 0`
tokens, which `acquire` performs only once `tokens ≥ n`. -/
inductive TokenBucket.Reachable (C r : ℚ) : TokenBucket → Prop
  | init : TokenBucket.Reachable C r (TokenBucket.init C r)
  | refill (b : TokenBucket) (e : ℚ) (hb : TokenBucket.Reachable C r b)
      (he : 0 ≤ e) : TokenBucket.Reachable C r (b.refill e)
  | acquire (b : TokenBucket) (n : ℚ) (hb : TokenBucket.Reachable C r b)
      (hn : 0 ≤ n) (hok : n ≤ b.tokens) :
      TokenBucket.Reachable C r (b.deduct n)

/-- Reachable states keep the configured capacity and refill rate. -/
lemma TokenBucket.Reachable.config {C r : ℚ} {b : TokenBucket}
    (h : TokenBucket.Reachable C r b) : b.capacity = C ∧ b.refill_rate = r := by
  induction h with
  | init => exact ⟨rfl, rfl⟩
  | refill b e hb he ih => exact ih
  | acquire b n hb hn hok ih => exact ih

/-- C3: for every token bucket with capacity `C ≥ 0` and refill rate
`r > 0`, and every interleaved sequence of `acquire(n)` and `get_status()`
operations starting from the full bucket, the invariant
`0 ≤ tokens ≤ capacity` holds at every observation point: refills add
`elapsed × r` tokens capped at `C`, and tokens decrease only by
acquisition. -/
theorem C3_token_bucket_invariant (C r : ℚ) (b : TokenBucket)
    (hC : 0 ≤ C) (hr : 0 < r) (hb : TokenBucket.Reachable C r b) :
    0 ≤ b.tokens ∧ b.tokens ≤ C := by
  induction hb with
  | init => simp [TokenBucket.init, hC]
  | refill b e hb he ih =>
      obtain ⟨hcap, hrate⟩ := hb.config
      constructor
      · have h1 : 0 ≤ b.tokens + e * b.refill_rate := by
          have : 0 ≤ e * b.refill_rate := by
            apply mul_nonneg he
            rw [hrate]
            exact le_of_lt hr
          linarith [ih.1]
        simp only [TokenBucket.refill, le_min_iff]
        exact ⟨by rw [hcap]; exact hC, h1⟩
      · simp only [TokenBucket.refill]
        rw [hcap]
        exact min_le_left _ _
  | acquire b n hb hn hok ih =>
      simp only [TokenBucket.deduct]
      constructor
      · linarith
      · linarith [ih.2]

/-- Witness for C3: capacity 60, rate 1; refill 5 seconds then acquire 1. -/
theorem C3_witness :
    (0 ≤ (60 : ℚ) ∧ (0 : ℚ) < 1 ∧
     TokenBucket.Reachable 60 1 (((TokenBucket.init 60 1).refill 5).deduct 1)) ∧
    (0 ≤ (((TokenBucket.init 60 1).refill 5).deduct 1).tokens ∧
     (((TokenBucket.init 60 1).refill 5).deduct 1).tokens ≤ 60) := by
  have hreach : TokenBucket.Reachable 60 1
      (((TokenBucket.init 60 1).refill 5).deduct 1) := by
    apply TokenBucket.Reachable.acquire _ _
      (TokenBucket.Reachable.refill _ _ TokenBucket.Reachable.init (by norm_num))
      (by norm_num)
    simp [TokenBucket.init, TokenBucket.refill]
  exact ⟨⟨by norm_num, by norm_num, hreach⟩,
    C3_token_bucket_invariant 60 1 _ (by norm_num) (by norm_num) hreach⟩

/-- The `while True` loop of `TokenBucketRateLimiter.acquire`, with explicit
fuel.  Each iteration re-checks `tokens >= n` after a refill; on a miss it
computes `wait = deficit / refill_rate`, sleeps `min(wait, 1.0)`, and the
next iteration's refill covers the slept time plus a nonnegative extra
wall-clock overshoot `ex i` (real sleeps never undershoot).  On success it
deducts `n` tokens and returns the bucket plus the accumulated wait time. -/
def acquireGo (n : ℚ) (ex : ℕ → ℚ) :
    ℕ → ℕ → ℚ → TokenBucket → Option (TokenBucket × ℚ)
  | 0, _, _, _ => none
  | fuel + 1, i, waited, b =>
      if n ≤ b.tokens then
        some (b.deduct n, waited)
      else
        let deficit := n - b.tokens
        let w := deficit / b.refill_rate
        let slept := min w 1
        acquireGo n ex fuel (i + 1) (waited + slept + ex i)
          (b.refill (slept + ex i))

/-- One-step unfolding of the acquire loop. -/
lemma acquireGo_succ (n : ℚ) (ex : ℕ → ℚ) (fuel i : ℕ) (waited : ℚ)
    (b : TokenBucket) :
    acquireGo n ex (fuel + 1) i waited b
      = if n ≤ b.tokens then some (b.deduct n, waited)
        else acquireGo n ex fuel (i + 1)
          (waited + min ((n - b.tokens) / b.refill_rate) 1 + ex i)
          (b.refill (min ((n - b.tokens) / b.refill_rate) 1 + ex i)) := rfl

/-- `TokenBucketRateLimiter.acquire(n)`: a first refill of `e0` elapsed
seconds, then the blocking loop. -/
def TokenBucket.acquire (b : TokenBucket) (n e0 : ℚ) (ex : ℕ → ℚ)
    (fuel : ℕ) : Option (TokenBucket × ℚ) :=
  acquireGo n ex fuel 0 0 (b.refill e0)

/-- `acquire` terminates for some fuel bound: the blocking loop eventually
deducts the requested tokens and returns. -/
def AcquireTerminates (b : TokenBucket) (n e0 : ℚ) (ex : ℕ → ℚ) : Prop :=
  ∃ fuel out, b.acquire n e0 ex fuel = some out

/-- The all-zero overshoot sequence (each sleep takes exactly the requested
time). -/
def zeroEx : ℕ → ℚ := fun _ => 0

/-- Refills preserve the configured capacity and rate. -/
lemma TokenBucket.refill_config (b : TokenBucket) (e : ℚ) :
    (b.refill e).capacity = b.capacity ∧ (b.refill e).refill_rate = b.refill_rate :=
  ⟨rfl, rfl⟩

/-- Fuel lemma for the acquire loop: whenever the remaining deficit is at
most `k` refill-rates, `k + 1` loop iterations suffice. -/
lemma acquireGo_succeeds (C r n : ℚ) (ex : ℕ → ℚ)
    (hr : 0 < r) (hnC : n ≤ C) (hex : ∀ i, 0 ≤ ex i) :
    ∀ (k : ℕ) (i : ℕ) (waited : ℚ) (b : TokenBucket),
      b.capacity = C → b.refill_rate = r → n - b.tokens ≤ k * r →
      ∃ out, acquireGo n ex (k + 1) i waited b = some out := by
  intro k
  induction k with
  | zero =>
      intro i waited b hC hR hdef
      have hguard : n ≤ b.tokens := by
        simp only [Nat.cast_zero, zero_mul] at hdef
        linarith
      exact ⟨(b.deduct n, waited), by simp [acquireGo, hguard]⟩
  | succ k ih =>
      intro i waited b hC hR hdef
      by_cases hguard : n ≤ b.tokens
      · exact ⟨(b.deduct n, waited), by simp [acquireGo, hguard]⟩
      · push_neg at hguard
        set d := n - b.tokens with hd
        have hdpos : 0 < d := by simp [hd]; linarith
        set slept := min (d / r) 1 with hslept
        have hsleptr : slept * r = min d r := by
          rcases le_or_lt (d / r) 1 with h1 | h1
          · have hdr : d ≤ r := by
              rw [div_le_one hr] at h1
              exact h1
            rw [hslept, min_eq_left h1, div_mul_cancel₀ _ (ne_of_gt hr),
              min_eq_left hdr]
          · have hdr : r < d := by
              rw [lt_div_iff₀ hr] at h1
              simpa using h1
            rw [hslept, min_eq_right (le_of_lt h1), one_mul,
              min_eq_right (le_of_lt hdr)]
        set b' := b.refill (slept + ex i) with hb'
        have hb'C : b'.capacity = C := by rw [hb', TokenBucket.refill]; exact hC
        have hb'R : b'.refill_rate = r := by rw [hb', TokenBucket.refill]; exact hR
        have htok : min C (b.tokens + min d r) ≤ b'.tokens := by
          rw [hb']
          simp only [TokenBucket.refill, hC, hR]
          apply min_le_min (le_refl C)
          have : min d r = slept * r := hsleptr.symm
          rw [this, add_mul]
          have : 0 ≤ ex i * r := mul_nonneg (hex i) (le_of_lt hr)
          linarith
        have hdef' : n - b'.tokens ≤ k * r := by
          rcases le_or_lt d r with hcase | hcase
          · have h1 : min d r = d := min_eq_left hcase
            have h2 : b.tokens + d = n := by rw [hd]; ring
            have h3 : min C (b.tokens + min d r) = n := by
              rw [h1, h2, min_eq_right hnC]
            have : 0 ≤ (k : ℚ) * r :=
              mul_nonneg (Nat.cast_nonneg k) (le_of_lt hr)
            linarith [htok, h3 ▸ htok]
          · have h1 : min d r = r := min_eq_right (le_of_lt hcase)
            have h2 : b.tokens + r ≤ C := by
              have : b.tokens + d = n := by rw [hd]; ring
              linarith
            have h3 : min C (b.tokens + min d r) = b.tokens + r := by
              rw [h1, min_eq_right h2]
            have h4 : b.tokens + r ≤ b'.tokens := h3 ▸ htok
            have h5 : (k : ℚ) + 1 = ((k + 1 : ℕ) : ℚ) := by push_cast; ring
            have h6 : n - b.tokens ≤ ((k : ℚ) + 1) * r := by
              rw [h5]; exact hdef
            nlinarith
        obtain ⟨out, hout⟩ := ih (i + 1) (waited + slept + ex i) b' hb'C hb'R hdef'
        refine ⟨out, ?_⟩
        rw [acquireGo_succ, if_neg (not_le.mpr hguard), hR, ← hd, ← hslept, ← hb']
        exact hout

/-- C4 (amended): for every token bucket with refill rate `r > 0` and every
requested token count `n` with `1 ≤ n ≤ capacity`, `acquire(n)` terminates:
it always eventually deducts the `n` tokens and returns the wait time
incurred; acquisition has no failure path.  (The amendment restricts the
request to at most the bucket capacity — see the counterexample.) -/
theorem C4_acquire_terminates (b : TokenBucket) (n e0 : ℚ) (ex : ℕ → ℚ)
    (hr : 0 < b.refill_rate) (hn : 1 ≤ n) (hnC : n ≤ b.capacity)
    (hex : ∀ i, 0 ≤ ex i) :
    AcquireTerminates b n e0 ex := by
  set b1 := b.refill e0 with hb1
  obtain ⟨k, hk⟩ := exists_nat_ge ((n - b1.tokens) / b.refill_rate)
  have hdef : n - b1.tokens ≤ k * b.refill_rate := by
    rw [div_le_iff₀ hr] at hk
    linarith
  obtain ⟨out, hout⟩ := acquireGo_succeeds b.capacity b.refill_rate n ex hr hnC
    hex k 0 0 b1 (by rw [hb1, TokenBucket.refill]) (by rw [hb1, TokenBucket.refill])
    hdef
  exact ⟨k + 1, out, hout⟩

/-- On a bucket of capacity 1, the acquire loop can never satisfy a request
for 2 tokens: tokens stay capped at 1 forever. -/
lemma acquireGo_two_none (ex : ℕ → ℚ) :
    ∀ (fuel i : ℕ) (waited : ℚ) (b : TokenBucket),
      b.capacity = 1 → b.tokens ≤ 1 → acquireGo 2 ex fuel i waited b = none := by
  intro fuel
  induction fuel with
  | zero => intro i waited b _ _; rfl
  | succ f ih =>
      intro i waited b hC htok
      have hguard : ¬ ((2 : ℚ) ≤ b.tokens) := by linarith
      simp only [acquireGo, if_neg hguard]
      apply ih
      · rw [TokenBucket.refill]; exact hC
      · simp only [TokenBucket.refill, hC]
        exact min_le_left _ _

/-- Counterexample to C4 as stated: on a full bucket of capacity 1 with
refill rate 1 (> 0), `acquire(2)` never terminates — tokens are capped at
the capacity, so the loop's guard can never be met even though the
requested count is ≥ 1 and the rate is positive. -/
theorem C4_counterexample :
    ¬ AcquireTerminates { capacity := 1, tokens := 1, refill_rate := 1 } 2 0 zeroEx := by
  rintro ⟨fuel, out, hout⟩
  rw [TokenBucket.acquire, acquireGo_two_none zeroEx fuel 0 0 _ rfl (by
    simp [TokenBucket.refill])] at hout
  exact Option.noConfusion hout

/-- Witness for C4 (amended): capacity 60, rate 1, request 1 token. -/
theorem C4_witness :
    ((0 : ℚ) < (TokenBucket.init 60 1).refill_rate ∧ (1 : ℚ) ≤ 1 ∧
     (1 : ℚ) ≤ (TokenBucket.init 60 1).capacity ∧ (∀ i, 0 ≤ zeroEx i)) ∧
    AcquireTerminates (TokenBucket.init 60 1) 1 0 zeroEx :=
  ⟨⟨by norm_num [TokenBucket.init], le_refl 1,
    by norm_num [TokenBucket.init], fun i => le_refl 0⟩,
   C4_acquire_terminates (TokenBucket.init 60 1) 1 0 zeroEx
     (by norm_num [TokenBucket.init]) (le_refl 1)
     (by norm_num [TokenBucket.init]) (fun i => le_refl 0)⟩

/-! ## Exponential backoff (`ExponentialBackoff`, rate_limit_protection.py
lines 332-409).  The wrapped operation is modelled as a function from the
attempt index to `Except` (Python exceptions carry a message string); the
random jitter draw is an explicit sequence. -/

/-- Configuration of `ExponentialBackoff`. -/
structure ExponentialBackoff where
  base_delay : ℚ
  max_delay : ℚ
  max_attempts : ℕ
  jitter : Bool
deriving Repr, DecidableEq

/-- The capped exponential delay computed after failed attempt `i`:
`min(base_delay * 2 ** attempt, max_delay)`. -/
def ExponentialBackoff.delayAt (eb : ExponentialBackoff) (attempt : ℕ) : ℚ :=
  min (eb.base_delay * 2 ^ attempt) eb.max_delay

/-- The actual slept duration after failed attempt `i`: the capped delay
plus, when jitter is enabled, the uniform draw `j i` from
`[0, 0.1 * delay]`. -/
def ExponentialBackoff.sleepAt (eb : ExponentialBackoff) (j : ℕ → ℚ)
    (attempt : ℕ) : ℚ :=
  eb.delayAt attempt + (if eb.jitter then j attempt else 0)

/-- The retry loop of `ExponentialBackoff.execute`: `fuel` counts the
remaining iterations of `for attempt in range(max_attempts)` and `i` is the
current attempt index.  Returns the final outcome together with the number
of invocations of the operation.  Exhausting the loop without an in-loop
raise (possible only when `max_attempts = 0`) raises the generic
`"All retry attempts exhausted"` error. -/
def executeGo {α : Type} (M : ℕ) (op : ℕ → Except String α) :
    ℕ → ℕ → Except String α × ℕ
  | 0, i => (Except.error "All retry attempts exhausted", i)
  | fuel + 1, i =>
      match op i with
      | Except.ok a => (Except.ok a, i + 1)
      | Except.error e =>
          if i = M - 1 then (Except.error e, i + 1)
          else executeGo M op fuel (i + 1)

/-- `ExponentialBackoff.execute(func)`. -/
def ExponentialBackoff.execute {α : Type} (eb : ExponentialBackoff)
    (op : ℕ → Except String α) : Except String α × ℕ :=
  executeGo eb.max_attempts op eb.max_attempts 0

/-- If every attempt fails, the loop performs all remaining attempts and
re-raises the error of attempt `M - 1`. -/
lemma executeGo_all_fail {α : Type} (M : ℕ) (op : ℕ → Except String α)
    (efin : String) (hlast : op (M - 1) = Except.error efin)
    (hf : ∀ i, ∃ e, op i = Except.error e) :
    ∀ (fuel i : ℕ), i + fuel = M → i < M →
      executeGo M op fuel i = (Except.error efin, M) := by
  intro fuel
  induction fuel with
  | zero => intro i hsum hlt; omega
  | succ f ih =>
      intro i hsum hlt
      obtain ⟨e, he⟩ := hf i
      by_cases hi : i = M - 1
      · have hefin : e = efin := by
          rw [hi] at he
          rw [he] at hlast
          exact Except.error.inj hlast
        simp only [executeGo, he, if_pos hi, hefin]
        have : i + 1 = M := by omega
        rw [this]
      · simp only [executeGo, he, if_neg hi]
        exact ih (i + 1) (by omega) (by omega)

/-- If attempt `k - 1` succeeds and all earlier attempts fail, the loop
returns the success after exactly `k` invocations. -/
lemma executeGo_succeeds_at {α : Type} (M : ℕ) (op : ℕ → Except String α)
    (k : ℕ) (a : α) (hk1 : 1 ≤ k) (hkM : k ≤ M)
    (hsk : op (k - 1) = Except.ok a)
    (hsf : ∀ i, i < k - 1 → ∃ e, op i = Except.error e) :
    ∀ (fuel i : ℕ), i + fuel = M → i ≤ k - 1 →
      executeGo M op fuel i = (Except.ok a, k) := by
  intro fuel
  induction fuel with
  | zero => intro i hsum hle; omega
  | succ f ih =>
      intro i hsum hle
      by_cases hi : i = k - 1
      · rw [hi]
        simp only [executeGo, hsk]
        have : k - 1 + 1 = k := by omega
        rw [this]
      · have hilt : i < k - 1 := by omega
        obtain ⟨e, he⟩ := hsf i hilt
        have hiM : i ≠ M - 1 := by omega
        simp only [executeGo, he, if_neg hiM]
        exact ih (i + 1) (by omega) (by omega)

/-- C5: for every `ExponentialBackoff` with `max_attempts = M ≥ 1`,
`base_delay = b` and `max_delay = D ≥ 0`: an operation that raises on every
invocation is invoked exactly `M` times and the last exception is re-raised
(never swallowed); each inter-attempt sleep equals the capped delay
`min(b * 2^i, D)` plus (when jitter is enabled) a uniform addition `j i` in
`[0, 0.1 * delay]`, hence every sleep is at most `D * 1.1`; and an operation
that first succeeds on attempt `k ≤ M` yields its result after exactly `k`
invocations. -/
theorem C5_backoff_max_attempts (b D : ℚ) (M : ℕ) (jit : Bool) (j : ℕ → ℚ)
    (opf ops : ℕ → Except String ℚ) (efin : String) (k : ℕ) (a : ℚ)
    (hM : 1 ≤ M) (hD : 0 ≤ D)
    (hj : ∀ i, 0 ≤ j i ∧
      j i ≤ (ExponentialBackoff.mk b D M jit).delayAt i * (1 / 10))
    (hf : ∀ i, ∃ e, opf i = Except.error e)
    (hlast : opf (M - 1) = Except.error efin)
    (hk1 : 1 ≤ k) (hkM : k ≤ M)
    (hsk : ops (k - 1) = Except.ok a)
    (hsf : ∀ i, i < k - 1 → ∃ e, ops i = Except.error e) :
    ((ExponentialBackoff.mk b D M jit).execute opf = (Except.error efin, M)) ∧
    (∀ i, (ExponentialBackoff.mk b D M jit).sleepAt j i ≤ D * (11 / 10)) ∧
    ((ExponentialBackoff.mk b D M jit).execute ops = (Except.ok a, k)) := by
  refine ⟨?_, ?_, ?_⟩
  · exact executeGo_all_fail M opf efin hlast hf M 0 (by omega) (by omega)
  · intro i
    have hdel : (ExponentialBackoff.mk b D M jit).delayAt i ≤ D :=
      min_le_right _ _
    have hjb := hj i
    unfold ExponentialBackoff.sleepAt
    rcases jit with _ | _ <;> simp only [Bool.false_eq_true, if_false, if_true]
    · linarith
    · have : j i ≤ D * (1 / 10) := le_trans hjb.2 (by nlinarith)
      linarith
  · exact executeGo_succeeds_at M ops k a hk1 hkM hsk hsf M 0 (by omega)
      (by omega)

/-- Concrete always-failing operation for the C5 witness. -/
def opAlwaysFail : ℕ → Except String ℚ := fun _ => Except.error "boom"

/-- Concrete operation succeeding on its second attempt for the C5
witness. -/
def opSecondTry : ℕ → Except String ℚ :=
  fun i => if i = 1 then Except.ok 42 else Except.error "transient"

/-- Witness for C5: `base_delay = 1`, `max_delay = 60`, `max_attempts = 3`,
jitter on with all draws 0; the always-failing operation raises after 3
attempts, and `opSecondTry` returns 42 after 2 attempts. -/
theorem C5_witness :
    (1 ≤ 3 ∧ (0 : ℚ) ≤ 60 ∧
     (∀ i, 0 ≤ zeroEx i ∧
       zeroEx i ≤ (ExponentialBackoff.mk 1 60 3 true).delayAt i * (1 / 10)) ∧
     (∀ i, ∃ e, opAlwaysFail i = Except.error e) ∧
     opAlwaysFail (3 - 1) = Except.error "boom" ∧
     1 ≤ 2 ∧ 2 ≤ 3 ∧ opSecondTry (2 - 1) = Except.ok 42 ∧
     (∀ i, i < 2 - 1 → ∃ e, opSecondTry i = Except.error e)) ∧
    (((ExponentialBackoff.mk 1 60 3 true).execute opAlwaysFail
        = (Except.error "boom", 3)) ∧
     (∀ i, (ExponentialBackoff.mk 1 60 3 true).sleepAt zeroEx i
        ≤ 60 * (11 / 10)) ∧
     ((ExponentialBackoff.mk 1 60 3 true).execute opSecondTry
        = (Except.ok 42, 2))) := by
  have hj : ∀ i, 0 ≤ zeroEx i ∧
      zeroEx i ≤ (ExponentialBackoff.mk 1 60 3 true).delayAt i * (1 / 10) := by
    intro i
    refine ⟨le_refl 0, ?_⟩
    unfold zeroEx ExponentialBackoff.delayAt
    have h2 : (0 : ℚ) < 2 ^ i := by positivity
    have : (0 : ℚ) ≤ min ((1 : ℚ) * 2 ^ i) 60 := by
      apply le_min <;> nlinarith
    nlinarith
  have hf : ∀ i, ∃ e, opAlwaysFail i = Except.error e :=
    fun _ => ⟨"boom", rfl⟩
  have hsf : ∀ i, i < 2 - 1 → ∃ e, opSecondTry i = Except.error e := by
    intro i hi
    have : i = 0 := by omega
    subst this
    exact ⟨"transient", rfl⟩
  exact ⟨⟨by omega, by norm_num, hj, hf, rfl, by omega, by omega, rfl, hsf⟩,
    C5_backoff_max_attempts 1 60 3 true zeroEx opAlwaysFail opSecondTry
      "boom" 2 42 (by omega) (by norm_num) hj hf rfl (by omega) (by omega)
      rfl hsf⟩

/-! ## Health monitor (`EnhancedHealthMonitor`, rate_limit_protection.py
lines 645-797). -/

/-- The cumulative counters of `self.metrics`.  `total_jobs_found` is an
integer because it accumulates the caller-supplied `jobs_found`. -/
structure HealthMetrics where
  total_calls : ℕ
  successful_calls : ℕ
  failed_calls : ℕ
  rate_limit_errors : ℕ
  server_errors : ℕ
  auth_errors : ℕ
  companies_processed : ℕ
  companies_with_jobs : ℕ
  total_jobs_found : ℤ
deriving Repr, DecidableEq

/-- State of `EnhancedHealthMonitor` (the fixed `ALERT_THRESHOLDS` and the
start time are not part of the mutable state). -/
structure EnhancedHealthMonitor where
  metrics : HealthMetrics
  response_times : List ℚ
  consecutive_failures : ℕ
deriving Repr, DecidableEq

/-- `EnhancedHealthMonitor.__init__`: all counters zero. -/
def EnhancedHealthMonitor.init : EnhancedHealthMonitor :=
  { metrics := { total_calls := 0, successful_calls := 0, failed_calls := 0,
                 rate_limit_errors := 0, server_errors := 0, auth_errors := 0,
                 companies_processed := 0, companies_with_jobs := 0,
                 total_jobs_found := 0 }
    response_times := []
    consecutive_failures := 0 }

/-- `ALERT_THRESHOLDS['rate_limit_errors']` (line 675): 2 rate limit
errors. -/
def ALERT_THRESHOLDS_rate_limit_errors : ℕ := 2

/-- `EnhancedHealthMonitor.record_call` (the `_check_alerts` call at the end
only prints). -/
def EnhancedHealthMonitor.record_call (m : EnhancedHealthMonitor)
    (status_code jobs_found : ℤ) (response_time_ms : ℚ) :
    EnhancedHealthMonitor :=
  let m1 : EnhancedHealthMonitor :=
    { m with
      metrics := { m.metrics with
        total_calls := m.metrics.total_calls + 1
        companies_processed := m.metrics.companies_processed + 1 }
      response_times := m.response_times ++ [response_time_ms] }
  let m2 : EnhancedHealthMonitor :=
    if status_code = 200 then
      { m1 with
        metrics := { m1.metrics with
          successful_calls := m1.metrics.successful_calls + 1 }
        consecutive_failures := 0 }
    else
      { m1 with
        metrics := { m1.metrics with
          failed_calls := m1.metrics.failed_calls + 1 }
        consecutive_failures := m1.consecutive_failures + 1 }
  let m3 : EnhancedHealthMonitor :=
    if status_code = 403 ∨ status_code = 429 then
      { m2 with metrics := { m2.metrics with
          rate_limit_errors := m2.metrics.rate_limit_errors + 1 } }
    else if status_code = 401 ∨ status_code = 402 then
      { m2 with metrics := { m2.metrics with
          auth_errors := m2.metrics.auth_errors + 1 } }
    else if 500 ≤ status_code then
      { m2 with metrics := { m2.metrics with
          server_errors := m2.metrics.server_errors + 1 } }
    else m2
  if 0 < jobs_found then
    { m3 with metrics := { m3.metrics with
        companies_with_jobs := m3.metrics.companies_with_jobs + 1
        total_jobs_found := m3.metrics.total_jobs_found + jobs_found } }
  else m3

/-- `EnhancedHealthMonitor.should_trigger_fallback`. -/
def EnhancedHealthMonitor.should_trigger_fallback
    (m : EnhancedHealthMonitor) : Bool × Option String :=
  if m.metrics.rate_limit_errors ≥ ALERT_THRESHOLDS_rate_limit_errors then
    (true, some "rate_limit_errors")
  else if m.consecutive_failures ≥ 5 then
    (true, some "consecutive_failures")
  else if m.metrics.companies_processed ≥ 10 ∧
      (m.metrics.companies_with_jobs : ℚ) / (m.metrics.companies_processed : ℚ)
        < 15 / 100 then
    (true, some "low_success_rate")
  else
    (false, none)

/-- C8: for every health-monitor state, `should_trigger_fallback()` returns
true together with a reason tag if and only if at least one of three
independent conditions holds: (a) the count of rate-limit-classified errors
is ≥ 2, (b) consecutive failures are ≥ 5, or (c) at least 10 work items
have been processed and the fraction of work items that yielded at least
one result is below 0.15; otherwise it returns false with no reason. -/
theorem C8_fallback_trigger (m : EnhancedHealthMonitor) :
    (m.should_trigger_fallback.1 = true ↔
      (2 ≤ m.metrics.rate_limit_errors ∨ 5 ≤ m.consecutive_failures ∨
       (10 ≤ m.metrics.companies_processed ∧
        (m.metrics.companies_with_jobs : ℚ) / (m.metrics.companies_processed : ℚ)
          < 15 / 100))) ∧
    (m.should_trigger_fallback.1 = true → m.should_trigger_fallback.2.isSome) ∧
    (m.should_trigger_fallback.1 = false → m.should_trigger_fallback.2 = none) := by
  unfold EnhancedHealthMonitor.should_trigger_fallback
    ALERT_THRESHOLDS_rate_limit_errors
  split_ifs <;> simp_all

/-- C9 counterexample: the claim says the consecutive-failure counter is
reset to 0 on every successful (2xx) status code, but `record_call` only
treats exactly 200 as success: recording status 201 on a fresh monitor
increments the counter to 1 instead of resetting it to 0. -/
theorem C9_counterexample :
    ¬ ((EnhancedHealthMonitor.init.record_call 201 0 0).consecutive_failures
        = 0) := by
  simp [EnhancedHealthMonitor.record_call, EnhancedHealthMonitor.init]

/-- C9 (amended): for every health-monitor state and every recorded call,
`record_call` classifies the status code (rate-limited for the two codes
403 and 429, auth-error for the two codes 401 and 402, server-error for
codes ≥ 500) and maintains the consecutive-failure counter so that it is
reset to 0 exactly on status code 200 and incremented by 1 on every
status code other than 200. -/
theorem C9_record_call_classification (m : EnhancedHealthMonitor)
    (status_code jobs_found : ℤ) (response_time_ms : ℚ) :
    ((m.record_call status_code jobs_found response_time_ms).metrics.rate_limit_errors
      = m.metrics.rate_limit_errors
        + (if status_code = 403 ∨ status_code = 429 then 1 else 0)) ∧
    ((m.record_call status_code jobs_found response_time_ms).metrics.auth_errors
      = m.metrics.auth_errors
        + (if status_code = 401 ∨ status_code = 402 then 1 else 0)) ∧
    ((m.record_call status_code jobs_found response_time_ms).metrics.server_errors
      = m.metrics.server_errors + (if 500 ≤ status_code then 1 else 0)) ∧
    ((m.record_call status_code jobs_found response_time_ms).consecutive_failures
      = if status_code = 200 then 0 else m.consecutive_failures + 1) := by
  unfold EnhancedHealthMonitor.record_call
  split_ifs <;> simp_all <;> omega

end RateLimit

namespace UsageTracker

/-! ## Persistent usage tracker (`PersistentAPIUsageTracker`,
api_usage_tracker.py).  The JSON state's `api_keys` dictionary becomes an
association list; `datetime.now()` is passed explicitly as the day of month
plus the formatted `"%Y-%m"` and `"%Y-%m-%d"` strings. -/

/-- Per-key entry of the persisted `api_keys` state. -/
structure KeyState where
  total_calls_used : ℤ
  monthly_limit : ℤ
  billing_cycle_day : ℤ
  last_reset : String
  current_month : String
  daily_usage : List (String × ℤ)
deriving Repr, DecidableEq

/-- A configured API key from `config['api_keys']`. -/
structure KeyInfo where
  label : String
  monthly_limit : ℤ
  priority : ℤ
deriving Repr, DecidableEq

/-- The reset applied to one key by `check_monthly_resets` when its billing
cycle rolled over. -/
def resetKeyState (current_month today_str : String) (ks : KeyState) : KeyState :=
  { ks with total_calls_used := 0, current_month := current_month,
            last_reset := today_str, daily_usage := [] }

/-- The per-key body of `check_monthly_resets`: reset exactly when the
stored month differs from the present month and today's day-of-month has
reached the key's billing cycle day. -/
def checkMonthlyResetEntry (today_day : ℤ) (current_month today_str : String)
    (ks : KeyState) : KeyState :=
  if current_month ≠ ks.current_month ∧ ks.billing_cycle_day ≤ today_day then
    resetKeyState current_month today_str ks
  else ks

/-- `PersistentAPIUsageTracker.check_monthly_resets` over the whole
`api_keys` table. -/
def check_monthly_resets (today_day : ℤ) (current_month today_str : String)
    (keys : List (String × KeyState)) : List (String × KeyState) :=
  keys.map fun kv =>
    (kv.1, checkMonthlyResetEntry today_day current_month today_str kv.2)

/-- `PersistentAPIUsageTracker.load_state` on the branch where the state
file exists and parses: it applies the monthly-reset check to the stored
state and returns it (the other branch builds a fresh state instead). -/
def load_state (today_day : ℤ) (current_month today_str : String)
    (keys : List (String × KeyState)) : List (String × KeyState) :=
  check_monthly_resets today_day current_month today_str keys

/-- The per-key reset body is idempotent: a freshly reset key carries the
present month, so the reset condition is false on a second pass. -/
lemma checkMonthlyResetEntry_idem (today_day : ℤ)
    (current_month today_str : String) (ks : KeyState) :
    checkMonthlyResetEntry today_day current_month today_str
      (checkMonthlyResetEntry today_day current_month today_str ks)
    = checkMonthlyResetEntry today_day current_month today_str ks := by
  unfold checkMonthlyResetEntry resetKeyState
  split_ifs <;> simp_all

/-- C6: for every stored usage state in which a key's `current_month`
differs from the present month and today's day-of-month has reached that
key's `billing_cycle_day`, loading the state resets that key's
`total_calls_used` to 0, clears its `daily_usage` map and sets
`current_month` to the present month; and loading the resulting state again
immediately afterward changes nothing (the monthly reset is idempotent,
applied at most once per billing cycle). -/
theorem C6_monthly_reset_idempotent (today_day : ℤ)
    (current_month today_str : String) (keys : List (String × KeyState))
    (l : String) (ks : KeyState) (hmem : (l, ks) ∈ keys)
    (hm : current_month ≠ ks.current_month)
    (hd : ks.billing_cycle_day ≤ today_day) :
    (∃ ks', (l, ks') ∈ load_state today_day current_month today_str keys ∧
       ks'.total_calls_used = 0 ∧ ks'.daily_usage = [] ∧
       ks'.current_month = current_month) ∧
    load_state today_day current_month today_str
        (load_state today_day current_month today_str keys)
      = load_state today_day current_month today_str keys := by
  constructor
  · refine ⟨resetKeyState current_month today_str ks, ?_, rfl, rfl, rfl⟩
    unfold load_state check_monthly_resets
    have hentry : checkMonthlyResetEntry today_day current_month today_str ks
        = resetKeyState current_month today_str ks := by
      unfold checkMonthlyResetEntry
      rw [if_pos ⟨hm, hd⟩]
    exact List.mem_map.mpr ⟨(l, ks), hmem, by simp [hentry]⟩
  · unfold load_state check_monthly_resets
    rw [List.map_map]
    apply List.map_congr_left
    intro kv _
    simp [Function.comp, checkMonthlyResetEntry_idem]

/-- Witness for C6: one stale key ("primary", stored month "2025-09",
5 calls used) loaded on 2025-10-15 with billing cycle day 1. -/
theorem C6_witness :
    (("primary",
        ({ total_calls_used := 5, monthly_limit := 250, billing_cycle_day := 1,
           last_reset := "2025-09-01", current_month := "2025-09",
           daily_usage := [("2025-09-20", 5)] } : KeyState)) ∈
       [("primary",
         ({ total_calls_used := 5, monthly_limit := 250, billing_cycle_day := 1,
            last_reset := "2025-09-01", current_month := "2025-09",
            daily_usage := [("2025-09-20", 5)] } : KeyState))] ∧
     "2025-10" ≠ "2025-09" ∧ (1 : ℤ) ≤ 15) ∧
    ((∃ ks', (("primary", ks') ∈ load_state 15 "2025-10" "2025-10-15"
         [("primary",
           ({ total_calls_used := 5, monthly_limit := 250, billing_cycle_day := 1,
              last_reset := "2025-09-01", current_month := "2025-09",
              daily_usage := [("2025-09-20", 5)] } : KeyState))]) ∧
       ks'.total_calls_used = 0 ∧ ks'.daily_usage = [] ∧
       ks'.current_month = "2025-10") ∧
     load_state 15 "2025-10" "2025-10-15"
        (load_state 15 "2025-10" "2025-10-15"
          [("primary",
            ({ total_calls_used := 5, monthly_limit := 250, billing_cycle_day := 1,
               last_reset := "2025-09-01", current_month := "2025-09",
               daily_usage := [("2025-09-20", 5)] } : KeyState))])
      = load_state 15 "2025-10" "2025-10-15"
          [("primary",
            ({ total_calls_used := 5, monthly_limit := 250, billing_cycle_day := 1,
               last_reset := "2025-09-01", current_month := "2025-09",
               daily_usage := [("2025-09-20", 5)] } : KeyState))]) :=
  ⟨⟨List.mem_singleton.mpr rfl, by decide, by decide⟩,
   C6_monthly_reset_idempotent 15 "2025-10" "2025-10-15" _ "primary" _
     (List.mem_singleton.mpr rfl) (by decide) (by decide)⟩

/-- Ascending comparison on priorities, the `key=lambda x: x['priority']`
of `sorted` in `get_available_key`. -/
def priorityLE (a b : KeyInfo) : Prop := a.priority ≤ b.priority

instance : DecidableRel priorityLE :=
  fun a b => inferInstanceAs (Decidable (a.priority ≤ b.priority))

instance : IsTotal KeyInfo priorityLE := ⟨fun a b => le_total a.priority b.priority⟩

instance : IsTrans KeyInfo priorityLE := ⟨fun _ _ _ => le_trans⟩

/-- `sorted(self.config['api_keys'], key=lambda x: x['priority'])`: astable
ascending sort by priority. -/
def sortKeysByPriority (cfg : List KeyInfo) : List KeyInfo :=
  List.insertionSort priorityLE cfg

/-- The `for key_info in sorted_keys` loop of `get_available_key`: the
state lookup `self.state['api_keys'][label]` raises `KeyError` (modelled as
`Except.error label`) when the label is missing; a key with positive
remaining quota is returned with that remaining count; exhausted keys are
skipped; a `(None, 0)` result when every key is exhausted is modelled as
`Except.ok none`. -/
def get_available_key_loop (keys : List (String × KeyState)) :
    List KeyInfo → Except String (Option (KeyInfo × ℤ))
  | [] => Except.ok none
  | ki :: rest =>
      match keys.lookup ki.label with
      | none => Except.error ki.label
      | some ks =>
          if 0 < ki.monthly_limit - ks.total_calls_used then
            Except.ok (some (ki, ki.monthly_limit - ks.total_calls_used))
          else
            get_available_key_loop keys rest

/-- `PersistentAPIUsageTracker.get_available_key` (its return value; the
`current_key` bookkeeping, the key-switch announcement and `save_state` do
not affect the returned key). -/
def get_available_key (cfg : List KeyInfo) (keys : List (String × KeyState)) :
    Except String (Option (KeyInfo × ℤ)) :=
  get_available_key_loop keys (sortKeysByPriority cfg)

/-- Remaining quota of a configured key against a usage state:
`monthly_limit − total_calls_used` (0 used as the placeholder when the
label is absent from the state). -/
def remainingOf (keys : List (String × KeyState)) (ki : KeyInfo) : ℤ :=
  ki.monthly_limit - ((keys.lookup ki.label).map KeyState.total_calls_used).getD 0

/-- When every scanned label is present in the state, the loop answers
`ok none` exactly when every scanned key is exhausted. -/
lemma get_available_key_loop_none_iff (keys : List (String × KeyState)) :
    ∀ (l : List KeyInfo), (∀ ki ∈ l, (keys.lookup ki.label).isSome) →
      (get_available_key_loop keys l = Except.ok none ↔
        ∀ ki ∈ l, remainingOf keys ki ≤ 0) := by
  intro l
  induction l with
  | nil => intro _; simp [get_available_key_loop]
  | cons hd tl ih =>
      intro hall
      obtain ⟨ks, hks⟩ := Option.isSome_iff_exists.mp (hall hd (by simp))
      have hrem : remainingOf keys hd = hd.monthly_limit - ks.total_calls_used := by
        unfold remainingOf
        rw [hks]
        rfl
      by_cases hpos : 0 < hd.monthly_limit - ks.total_calls_used
      · simp only [get_available_key_loop, hks, if_pos hpos]
        constructor
        · intro h; exact absurd h (by simp)
        · intro h
          have := h hd (by simp)
          rw [hrem] at this
          omega
      · simp only [get_available_key_loop, hks, if_neg hpos]
        rw [ih (fun ki hki => hall ki (List.mem_cons_of_mem hd hki))]
        constructor
        · intro h ki hki
          rcases List.mem_cons.mp hki with rfl | hki'
          · rw [hrem]; omega
          · exact h ki hki'
        · intro h ki hki
          exact h ki (List.mem_cons_of_mem hd hki)

/-- When the scanned list is sorted by ascending priority, a returned key
is a member with its positive remaining count, and every key of strictly
smaller priority in the list is exhausted. -/
lemma get_available_key_loop_some (keys : List (String × KeyState)) :
    ∀ (l : List KeyInfo), l.Pairwise priorityLE →
      ∀ (ki : KeyInfo) (rem : ℤ),
        get_available_key_loop keys l = Except.ok (some (ki, rem)) →
        ki ∈ l ∧ rem = remainingOf keys ki ∧ 0 < rem ∧
        ∀ ki' ∈ l, ki'.priority < ki.priority → remainingOf keys ki' ≤ 0 := by
  intro l
  induction l with
  | nil =>
      intro _ ki rem h
      exact absurd h (by simp [get_available_key_loop])
  | cons hd tl ih =>
      intro hsort ki rem h
      have hsort' : tl.Pairwise priorityLE := hsort.of_cons
      have hhd : ∀ b ∈ tl, priorityLE hd b :=
        fun b hb => List.rel_of_pairwise_cons hsort hb
      cases hks : keys.lookup hd.label with
      | none =>
          simp only [get_available_key_loop, hks] at h
          exact Except.noConfusion h
      | some ks =>
          have hrem : remainingOf keys hd
              = hd.monthly_limit - ks.total_calls_used := by
            unfold remainingOf
            rw [hks]
            rfl
          by_cases hpos : 0 < hd.monthly_limit - ks.total_calls_used
          · simp only [get_available_key_loop, hks, if_pos hpos,
              Except.ok.injEq, Option.some.injEq, Prod.mk.injEq] at h
            obtain ⟨rfl, rfl⟩ := h
            refine ⟨by simp, by rw [hrem], by omega, ?_⟩
            intro ki' hki' hlt
            rcases List.mem_cons.mp hki' with rfl | hki''
            · omega
            · exact absurd hlt (not_lt.mpr (hhd ki' hki''))
          · simp only [get_available_key_loop, hks, if_neg hpos] at h
            obtain ⟨hmem, hremeq, hrempos, hmin⟩ := ih hsort' ki rem h
            refine ⟨List.mem_cons_of_mem hd hmem, hremeq, hrempos, ?_⟩
            intro ki' hki' hlt
            rcases List.mem_cons.mp hki' with rfl | hki''
            · rw [hrem]; omega
            · exact hmin ki' hki'' hlt

/-- When every scanned label is present in the state, the loop never raises
`KeyError`. -/
lemma get_available_key_loop_no_error (keys : List (String × KeyState)) :
    ∀ (l : List KeyInfo), (∀ ki ∈ l, (keys.lookup ki.label).isSome) →
      ∀ e, get_available_key_loop keys l ≠ Except.error e := by
  intro l
  induction l with
  | nil => intro _ e h; exact absurd h (by simp [get_available_key_loop])
  | cons hd tl ih =>
      intro hall e
      obtain ⟨ks, hks⟩ := Option.isSome_iff_exists.mp (hall hd (by simp))
      by_cases hpos : 0 < hd.monthly_limit - ks.total_calls_used
      · simp only [get_available_key_loop, hks, if_pos hpos]
        simp
      · simp only [get_available_key_loop, hks, if_neg hpos]
        exact ih (fun ki hki => hall ki (List.mem_cons_of_mem hd hki)) e

/-- Membership transfers between a configuration and its priority sort. -/
lemma mem_sortKeysByPriority (cfg : List KeyInfo) (ki : KeyInfo) :
    ki ∈ sortKeysByPriority cfg ↔ ki ∈ cfg :=
  (List.perm_insertionSort priorityLE cfg).mem_iff

/-- C7: for every configuration whose keys carry distinct priorities and
every usage state holding an entry per configured key,
`get_available_key()` considers the keys in ascending priority order,
returns the first key whose remaining quota
(`monthly_limit − total_calls_used`) is strictly positive together with
that remaining count, and returns the null result exactly when every
configured key has remaining ≤ 0: a returned key is configured, its
remaining count is positive, and every configured key of strictly smaller
priority is exhausted. -/
theorem C7_key_rotation (cfg : List KeyInfo) (keys : List (String × KeyState))
    (hall : ∀ ki ∈ cfg, (keys.lookup ki.label).isSome)
    (hdist : cfg.Pairwise (fun a b => a.priority ≠ b.priority)) :
    (get_available_key cfg keys = Except.ok none ↔
       ∀ ki ∈ cfg, remainingOf keys ki ≤ 0) ∧
    (∀ (ki : KeyInfo) (rem : ℤ),
       get_available_key cfg keys = Except.ok (some (ki, rem)) →
       ki ∈ cfg ∧ rem = remainingOf keys ki ∧ 0 < rem ∧
       ∀ ki' ∈ cfg, ki'.priority < ki.priority → remainingOf keys ki' ≤ 0) := by
  have hall' : ∀ ki ∈ sortKeysByPriority cfg, (keys.lookup ki.label).isSome :=
    fun ki hki => hall ki ((mem_sortKeysByPriority cfg ki).mp hki)
  have hsorted : (sortKeysByPriority cfg).Pairwise priorityLE :=
    List.sorted_insertionSort priorityLE cfg
  constructor
  · rw [get_available_key,
      get_available_key_loop_none_iff keys (sortKeysByPriority cfg) hall']
    constructor
    · intro h ki hki
      exact h ki ((mem_sortKeysByPriority cfg ki).mpr hki)
    · intro h ki hki
      exact h ki ((mem_sortKeysByPriority cfg ki).mp hki)
  · intro ki rem h
    obtain ⟨hmem, hremeq, hrempos, hmin⟩ :=
      get_available_key_loop_some keys (sortKeysByPriority cfg) hsorted ki rem h
    refine ⟨(mem_sortKeysByPriority cfg ki).mp hmem, hremeq, hrempos, ?_⟩
    intro ki' hki' hlt
    exact hmin ki' ((mem_sortKeysByPriority cfg ki').mpr hki') hlt

/-- Two configured keys for the witnesses: "primary" (limit 1, priority 1)
and "backup" (limit 250, priority 2). -/
def cfgExample : List KeyInfo :=
  [{ label := "primary", monthly_limit := 1, priority := 1 },
   { label := "backup", monthly_limit := 250, priority := 2 }]

/-- Usage state for the witnesses: "primary" fully exhausted (1/1 used),
"backup" with 100/250 used. -/
def keysExample : List (String × KeyState) :=
  [("primary",
    { total_calls_used := 1, monthly_limit := 1, billing_cycle_day := 1,
      last_reset := "2025-10-01", current_month := "2025-10",
      daily_usage := [("2025-10-10", 1)] }),
   ("backup",
    { total_calls_used := 100, monthly_limit := 250, billing_cycle_day := 1,
      last_reset := "2025-10-01", current_month := "2025-10",
      daily_usage := [("2025-10-10", 100)] })]

/-- Witness for C7: with "primary" exhausted and "backup" having capacity
and lower precedence, the characterization applies; in particular the
computed result is "backup" with 150 remaining. -/
theorem C7_witness :
    ((∀ ki ∈ cfgExample, (keysExample.lookup ki.label).isSome) ∧
     cfgExample.Pairwise (fun a b => a.priority ≠ b.priority)) ∧
    ((get_available_key cfgExample keysExample = Except.ok none ↔
       ∀ ki ∈ cfgExample, remainingOf keysExample ki ≤ 0) ∧
     (∀ (ki : KeyInfo) (rem : ℤ),
       get_available_key cfgExample keysExample = Except.ok (some (ki, rem)) →
       ki ∈ cfgExample ∧ rem = remainingOf keysExample ki ∧ 0 < rem ∧
       ∀ ki' ∈ cfgExample, ki'.priority < ki.priority →
         remainingOf keysExample ki' ≤ 0)) :=
  ⟨⟨by decide, by decide⟩,
   C7_key_rotation cfgExample keysExample (by decide) (by decide)⟩

/-- A configuration holding a key ("secondary") that a stale persisted
state does not know about. -/
def staleCfg : List KeyInfo :=
  [{ label := "primary", monthly_limit := 1, priority := 1 },
   { label := "secondary", monthly_limit := 250, priority := 2 }]

/-- A stale persisted state written before "secondary" was configured, with
"primary" exhausted. -/
def staleKeys : List (String × KeyState) :=
  [("primary",
    { total_calls_used := 1, monthly_limit := 1, billing_cycle_day := 1,
      last_reset := "2025-10-01", current_month := "2025-10",
      daily_usage := [] })]

/-- C10: `get_available_key()` is exception-free under the precondition
that the state's `api_keys` table contains an entry for every configured
label; it indexes the state by each configured label without a presence
check, so for a state file written before a key was added to the
configuration (with the earlier keys exhausted) it raises `KeyError`
instead of returning a key or the null result; and `load_state` never
reconciles newly configured keys into a pre-existing state (loading
preserves the stored label set exactly). -/
theorem C10_missing_key_raises (cfg : List KeyInfo)
    (keys : List (String × KeyState))
    (hall : ∀ ki ∈ cfg, (keys.lookup ki.label).isSome) :
    (∀ e, get_available_key cfg keys ≠ Except.error e) ∧
    (get_available_key staleCfg staleKeys = Except.error "secondary") ∧
    (∀ (d : ℤ) (cm ts : String) (ks : List (String × KeyState)),
       (load_state d cm ts ks).map Prod.fst = ks.map Prod.fst) := by
  refine ⟨?_, by rfl, ?_⟩
  · intro e
    exact get_available_key_loop_no_error keys (sortKeysByPriority cfg)
      (fun ki hki => hall ki ((mem_sortKeysByPriority cfg ki).mp hki)) e
  · intro d cm ts ks
    unfold load_state check_monthly_resets
    rw [List.map_map]
    simp [Function.comp]

/-- Witness for C10, discharging the all-labels-present precondition at the
two-key example state. -/
theorem C10_witness :
    (∀ ki ∈ cfgExample, (keysExample.lookup ki.label).isSome) ∧
    ((∀ e, get_available_key cfgExample keysExample ≠ Except.error e) ∧
     (get_available_key staleCfg staleKeys = Except.error "secondary") ∧
     (∀ (d : ℤ) (cm ts : String) (ks : List (String × KeyState)),
       (load_state d cm ts ks).map Prod.fst = ks.map Prod.fst)) :=
  ⟨by decide, C10_missing_key_raises cfgExample keysExample (by decide)⟩

end UsageTracker
